import Mathlib

/-!
Verification of combot-server-go against its specification.

Each section embeds one part of the Go source as Lean definitions and proves
the specified properties about them:
* `Pool` — `src/core/pool/resource.go` (`ResourcePool.Get`, `Put`, `refillPool`)
* `Vlllm` — `src/core/providers/vlllm/vlllm.go` (`handleThinkTags`)
* `Core` — `src/core/websocket_server.go` (`verifyToken`, `handleWebSocket`)
* `Service` — device service (`ActivateDeviceAndGetToken`, `GetDeviceToken`)
* `Ota` — OTA handler (`handleOtaPost`, `versionLess`)
* `Task` — `src/task/callbacks.go` (`CallBack.OnComplete`, `CallBack.OnError`)

Go `int` counters are embedded as `Int`; the buffered channel of idle
resources is embedded by its length (`idle : Nat`), its capacity being
`config.MaxSize` as in `make(chan interface{}, config.MaxSize)`.
-/

namespace Pool

/-- Embeds `PoolConfig` from `src/core/pool/resource.go`.  `CheckInterval`
only schedules the maintenance tick and plays no role in the transition
relation, so it is omitted. -/
structure PoolConfig where
  MinSize : Int
  MaxSize : Int
  RefillSize : Int
deriving DecidableEq

/-- Embeds the counter state of `ResourcePool`: `idle` is `len(p.resources)`
(the buffered channel), `totalCount` and `inUseCount` are the two counters,
`closed` is the closed flag. -/
structure ResourcePool where
  idle : Nat
  totalCount : Int
  inUseCount : Int
  closed : Bool
deriving DecidableEq

/-- Result of `ResourcePool.Get`: a lease taken from the idle buffer, a lease
of a freshly created resource, or one of the three error returns. -/
inductive GetResult
  | leasedIdle
  | leasedNew
  | errClosed
  | errCreateFailed
  | errExhausted
deriving DecidableEq

/-- Result of `ResourcePool.Put`: destroyed because the pool is closed,
placed in the idle buffer, or destroyed because the buffer is full. -/
inductive PutResult
  | destroyedClosed
  | buffered
  | destroyedOverflow
deriving DecidableEq

/-- Embeds `ResourcePool.Get`.  `createOk` is the outcome of the
`factory.Create()` call made when no idle resource is buffered.
A channel receive with `default` succeeds exactly when the buffer is
nonempty (`0 < idle`). -/
def ResourcePool.Get (p : ResourcePool) (cfg : PoolConfig) (createOk : Bool) :
    ResourcePool × GetResult :=
  if p.closed then (p, .errClosed)
  else if 0 < p.idle then
    ({ p with idle := p.idle - 1, inUseCount := p.inUseCount + 1 }, .leasedIdle)
  else if p.totalCount < cfg.MaxSize then
    if createOk then
      ({ p with totalCount := p.totalCount + 1, inUseCount := p.inUseCount + 1 }, .leasedNew)
    else (p, .errCreateFailed)
  else (p, .errExhausted)

/-- Embeds `ResourcePool.Put` for a non-nil resource.  A channel send with
`default` succeeds exactly when the buffer has space (`idle < MaxSize`,
the channel's capacity). Note the source destroys without touching
`inUseCount` when the pool is closed. -/
def ResourcePool.Put (p : ResourcePool) (cfg : PoolConfig) :
    ResourcePool × PutResult :=
  if p.closed then (p, .destroyedClosed)
  else
    let q : ResourcePool := { p with inUseCount := p.inUseCount - 1 }
    if (q.idle : Int) < cfg.MaxSize then ({ q with idle := q.idle + 1 }, .buffered)
    else ({ q with totalCount := q.totalCount - 1 }, .destroyedOverflow)

/-- Embeds the `for i := 0; i < needed && p.totalCount < p.config.MaxSize; i++`
loop of `refillPool`.  Each iteration consumes one `factory.Create()` outcome
from `oks` (`headD false`: a missing outcome behaves as a failed creation,
which leaves the state unchanged either way). -/
def refillLoop (cfg : PoolConfig) : Nat → List Bool → ResourcePool → ResourcePool
  | 0, _, p => p
  | n + 1, oks, p =>
    if p.totalCount < cfg.MaxSize then
      let p2 :=
        if oks.headD false then
          if (p.idle : Int) < cfg.MaxSize then
            { p with idle := p.idle + 1, totalCount := p.totalCount + 1 }
          else p
        else p
      refillLoop cfg n oks.tail p2
    else p

/-- Embeds `ResourcePool.refillPool` (the body of one maintenance tick). -/
def ResourcePool.refillPool (p : ResourcePool) (cfg : PoolConfig)
    (oks : List Bool) : ResourcePool :=
  if p.closed then p
  else if (p.idle : Int) < cfg.MinSize then
    let needed := min (cfg.MinSize - (p.idle : Int)) cfg.RefillSize
    refillLoop cfg needed.toNat oks p
  else p

/-- Embeds the state of a pool freshly constructed by `NewResourcePool` on
the success path: `MinSize` resources created and buffered. -/
def newResourcePool (cfg : PoolConfig) : ResourcePool :=
  { idle := cfg.MinSize.toNat
    totalCount := cfg.MinSize
    inUseCount := 0
    closed := false }

/-- One externally triggered pool operation: a lease attempt (with the
factory outcome it would observe), a return, or a maintenance tick (with the
factory outcomes its refill loop would observe). -/
inductive PoolOp
  | get (createOk : Bool)
  | put
  | tick (oks : List Bool)

/-- Applies one operation to the pool state, discarding the result value. -/
def stepOp (cfg : PoolConfig) (p : ResourcePool) : PoolOp → ResourcePool
  | .get ok => (p.Get cfg ok).1
  | .put => (p.Put cfg).1
  | .tick oks => p.refillPool cfg oks

/-- Runs a sequence of pool operations from a given state. -/
def runOps (cfg : PoolConfig) (p : ResourcePool) : List PoolOp → ResourcePool
  | [] => p
  | op :: ops => runOps cfg (stepOp cfg p op) ops

/-- The counter invariant of the specification:
`idle + in_use = total ≤ maximum`. -/
def Invariant (cfg : PoolConfig) (p : ResourcePool) : Prop :=
  (p.idle : Int) + p.inUseCount = p.totalCount ∧ p.totalCount ≤ cfg.MaxSize

instance (cfg : PoolConfig) (p : ResourcePool) : Decidable (Invariant cfg p) := by
  unfold Invariant; infer_instance

theorem invariant_get (cfg : PoolConfig) (p : ResourcePool) (ok : Bool)
    (h : Invariant cfg p) : Invariant cfg (p.Get cfg ok).1 := by
  obtain ⟨hsum, hle⟩ := h
  unfold ResourcePool.Get
  split
  · exact ⟨hsum, hle⟩
  · split
    · rename_i hidle
      refine ⟨?_, hle⟩
      simp only
      have : ((p.idle - 1 : Nat) : Int) = (p.idle : Int) - 1 := by
        omega
      omega
    · split
      · split
        · exact ⟨by simp only; omega, by rename_i hlt _; simp only; omega⟩
        · exact ⟨hsum, hle⟩
      · exact ⟨hsum, hle⟩

theorem invariant_put (cfg : PoolConfig) (p : ResourcePool)
    (h : Invariant cfg p) : Invariant cfg (p.Put cfg).1 := by
  obtain ⟨hsum, hle⟩ := h
  unfold ResourcePool.Put
  split
  · exact ⟨hsum, hle⟩
  · dsimp only
    split
    · refine ⟨?_, hle⟩
      simp only
      push_cast
      omega
    · refine ⟨?_, by simp only; omega⟩
      simp only
      omega

theorem invariant_refillLoop (cfg : PoolConfig) (n : Nat) (oks : List Bool)
    (p : ResourcePool) (h : Invariant cfg p) :
    Invariant cfg (refillLoop cfg n oks p) := by
  induction n generalizing oks p with
  | zero => exact h
  | succ n ih =>
    obtain ⟨hsum, hle⟩ := h
    unfold refillLoop
    split
    · apply ih
      split
      · split
        · exact ⟨by simp only; push_cast; omega, by rename_i hlt _; simp only; omega⟩
        · exact ⟨hsum, hle⟩
      · exact ⟨hsum, hle⟩
    · exact ⟨hsum, hle⟩

theorem invariant_refillPool (cfg : PoolConfig) (p : ResourcePool)
    (oks : List Bool) (h : Invariant cfg p) :
    Invariant cfg (p.refillPool cfg oks) := by
  unfold ResourcePool.refillPool
  split
  · exact h
  · split
    · exact invariant_refillLoop cfg _ oks p h
    · exact h

theorem invariant_step (cfg : PoolConfig) (p : ResourcePool) (op : PoolOp)
    (h : Invariant cfg p) : Invariant cfg (stepOp cfg p op) := by
  cases op with
  | get ok => exact invariant_get cfg p ok h
  | put => exact invariant_put cfg p h
  | tick oks => exact invariant_refillPool cfg p oks h

theorem invariant_runOps (cfg : PoolConfig) (p : ResourcePool)
    (ops : List PoolOp) (h : Invariant cfg p) :
    Invariant cfg (runOps cfg p ops) := by
  induction ops generalizing p with
  | nil => exact h
  | cons op ops ih => exact ih _ (invariant_step cfg p op h)

theorem invariant_new (cfg : PoolConfig) (hmin : 0 ≤ cfg.MinSize)
    (hmax : cfg.MinSize ≤ cfg.MaxSize) : Invariant cfg (newResourcePool cfg) := by
  unfold Invariant newResourcePool
  constructor
  · simp only
    omega
  · simpa using hmax

end Pool

/-- C1: for every pool, after any sequence of `Get`, `Put` and
maintenance-tick (`refillPool`) operations starting from a freshly
constructed pool with a valid configuration (`0 ≤ MinSize ≤ MaxSize`, as
enforced by `NewResourcePool`), the counters satisfy
`idle + in_use = total ≤ maximum`. -/
theorem pool_counters_invariant (cfg : Pool.PoolConfig) (ops : List Pool.PoolOp)
    (hmin : 0 ≤ cfg.MinSize) (hmax : cfg.MinSize ≤ cfg.MaxSize) :
    Pool.Invariant cfg (Pool.runOps cfg (Pool.newResourcePool cfg) ops) :=
  Pool.invariant_runOps cfg _ ops (Pool.invariant_new cfg hmin hmax)

/-- Witness for C1 at a concrete configuration and operation sequence. -/
theorem pool_counters_invariant_witness :
    Pool.Invariant ⟨1, 2, 1⟩
      (Pool.runOps ⟨1, 2, 1⟩ (Pool.newResourcePool ⟨1, 2, 1⟩)
        [.get true, .get true, .get true, .put, .tick [true], .put]) :=
  pool_counters_invariant ⟨1, 2, 1⟩
    [.get true, .get true, .get true, .put, .tick [true], .put]
    (by decide) (by decide)

/-- C2: `Get` on an open pool leases a buffered idle instance and increments
`in_use` when one is available; otherwise, if `total < maximum`, it creates a
new instance (incrementing `total` and `in_use`) when the factory succeeds,
and returns the creation error with the state unchanged (in particular
`total` unchanged) when the factory fails; otherwise it fails with the
pool-exhausted error. -/
theorem pool_get_cases (cfg : Pool.PoolConfig) (p : Pool.ResourcePool)
    (ok : Bool) (hopen : p.closed = false) :
    (0 < p.idle →
      p.Get cfg ok =
        ({ p with idle := p.idle - 1, inUseCount := p.inUseCount + 1 },
          .leasedIdle)) ∧
    (p.idle = 0 → p.totalCount < cfg.MaxSize → ok = true →
      p.Get cfg ok =
        ({ p with totalCount := p.totalCount + 1
                  inUseCount := p.inUseCount + 1 }, .leasedNew)) ∧
    (p.idle = 0 → p.totalCount < cfg.MaxSize → ok = false →
      p.Get cfg ok = (p, .errCreateFailed)) ∧
    (p.idle = 0 → ¬ p.totalCount < cfg.MaxSize →
      p.Get cfg ok = (p, .errExhausted)) := by
  refine ⟨?_, ?_, ?_, ?_⟩ <;> intro h1 <;>
    simp [Pool.ResourcePool.Get, hopen, h1]
  · intro h2 h3
    simp [h2, h3]
  · intro h2 h3
    simp [h2, h3]
  · intro h2
    simp [h2]

/-- Witness for C2: a pool with one idle instance leases it. -/
theorem pool_get_cases_witness :
    Pool.ResourcePool.Get ⟨1, 1, 0, false⟩ ⟨1, 2, 1⟩ true =
      (⟨0, 1, 1, false⟩, .leasedIdle) :=
  (pool_get_cases ⟨1, 2, 1⟩ ⟨1, 1, 0, false⟩ true rfl).1 (by decide)

/-- The behaviour C3 ascribes to `Put`, transcribed from the spec's words:
first decrement `in_use`, then destroy when closed, buffer when there is
space, else destroy and decrement `total`. -/
def putClaimed (p : Pool.ResourcePool) (cfg : Pool.PoolConfig) :
    Pool.ResourcePool × Pool.PutResult :=
  let q : Pool.ResourcePool := { p with inUseCount := p.inUseCount - 1 }
  if q.closed then (q, .destroyedClosed)
  else if (q.idle : Int) < cfg.MaxSize then
    ({ q with idle := q.idle + 1 }, .buffered)
  else ({ q with totalCount := q.totalCount - 1 }, .destroyedOverflow)

/-- Counterexample to C3: on a closed pool with `in_use = 1`, `Put` leaves
`in_use` at `1` — the source returns from the closed branch before the
decrement — whereas the claim requires `in_use` to be decremented to `0`. -/
theorem put_closed_counterexample :
    ¬ ((Pool.ResourcePool.Put ⟨0, 1, 1, true⟩ ⟨1, 2, 1⟩).1.inUseCount =
        (putClaimed ⟨0, 1, 1, true⟩ ⟨1, 2, 1⟩).1.inUseCount) := by
  decide

/-- C3 (amended): if the pool is closed, `Put` destroys the instance and
leaves every counter unchanged (`in_use` is not decremented); otherwise it
decrements `in_use` and then either buffers the instance when the idle
buffer has space, or destroys it and decrements `total`. -/
theorem pool_put_cases (cfg : Pool.PoolConfig) (p : Pool.ResourcePool) :
    (p.closed = true → p.Put cfg = (p, .destroyedClosed)) ∧
    (p.closed = false → (p.idle : Int) < cfg.MaxSize →
      p.Put cfg =
        ({ p with idle := p.idle + 1, inUseCount := p.inUseCount - 1 },
          .buffered)) ∧
    (p.closed = false → ¬ (p.idle : Int) < cfg.MaxSize →
      p.Put cfg =
        ({ p with totalCount := p.totalCount - 1
                  inUseCount := p.inUseCount - 1 }, .destroyedOverflow)) := by
  refine ⟨?_, ?_, ?_⟩ <;> intro h1
  · simp [Pool.ResourcePool.Put, h1]
  · intro h2
    simp [Pool.ResourcePool.Put, h1, h2]
  · intro h2
    simp [Pool.ResourcePool.Put, h1, h2]

/-- Witness for C3 (amended): `Put` on a concrete closed pool changes
nothing. -/
theorem pool_put_cases_witness :
    Pool.ResourcePool.Put ⟨0, 1, 1, true⟩ ⟨1, 2, 1⟩ =
      (⟨0, 1, 1, true⟩, .destroyedClosed) :=
  (pool_put_cases ⟨1, 2, 1⟩ ⟨0, 1, 1, true⟩).1 rfl

namespace Vlllm

/-- Embeds `Provider.handleThinkTags` from
`src/core/providers/vlllm/vlllm.go`. -/
def handleThinkTags (content : String) (isActive : Bool) : String × Bool :=
  if content = "" then ("", isActive)
  else if content = "<think>" then ("", false)
  else if content = "</think>" then ("", true)
  else if !isActive then ("", isActive)
  else (content, isActive)

/-- Embeds the streaming loop of `ResponseWithImage` around
`handleThinkTags`: each nonempty chunk is filtered through the tag handler
and forwarded to the response channel only when the filtered text is
nonempty.  The loop starts with `isActive := true`. -/
def processTokens : List String → Bool → List String
  | [], _ => []
  | c :: rest, act =>
    if c = "" then processTokens rest act
    else
      let r := handleThinkTags c act
      if r.1 = "" then processTokens rest r.2
      else r.1 :: processTokens rest r.2

/-- The `isActive` state after the loop has consumed a list of chunks. -/
def stateAfter : List String → Bool → Bool
  | [], act => act
  | c :: rest, act =>
    if c = "" then stateAfter rest act
    else stateAfter rest (handleThinkTags c act).2

theorem processTokens_append (xs ys : List String) (act : Bool) :
    processTokens (xs ++ ys) act =
      processTokens xs act ++ processTokens ys (stateAfter xs act) := by
  induction xs generalizing act with
  | nil => rfl
  | cons c rest ih =>
    by_cases hc : c = ""
    · simp [processTokens, stateAfter, hc, ih]
    · by_cases hr : (handleThinkTags c act).1 = "" <;>
        simp [processTokens, stateAfter, hc, hr, ih]

theorem marker_not_in_output (ts : List String) (act : Bool) :
    "<think>" ∉ processTokens ts act ∧ "</think>" ∉ processTokens ts act := by
  induction ts generalizing act with
  | nil => simp [processTokens]
  | cons c rest ih =>
    by_cases hc : c = ""
    · simpa [processTokens, hc] using ih act
    · by_cases hr : (handleThinkTags c act).1 = ""
      · simpa [processTokens, hc, hr] using ih (handleThinkTags c act).2
      · have hout : (handleThinkTags c act).1 = c ∧
            (handleThinkTags c act).2 = act := by
          unfold handleThinkTags at hr ⊢
          split at hr
          · simp_all
          · split at hr
            · simp_all
            · split at hr
              · simp_all
              · split at hr
                · simp_all
                · split <;> simp_all
        have hneq1 : c ≠ "<think>" := by
          intro h
          apply hr
          simp [handleThinkTags, hc, h]
        have hneq2 : c ≠ "</think>" := by
          intro h
          apply hr
          simp [handleThinkTags, hc, h]
        simp only [processTokens, if_neg hc, if_neg hr]
        constructor
        · intro hmem
          rcases List.mem_cons.mp (hout.1 ▸ hmem) with h | h
          · exact hneq1 h.symm
          · exact (ih (handleThinkTags c act).2).1 h
        · intro hmem
          rcases List.mem_cons.mp (hout.1 ▸ hmem) with h | h
          · exact hneq2 h.symm
          · exact (ih (handleThinkTags c act).2).2 h

theorem inactive_suppressed (mid : List String)
    (hmid : ∀ t ∈ mid, t ≠ "</think>") :
    processTokens mid false = [] ∧ stateAfter mid false = false := by
  induction mid with
  | nil => simp [processTokens, stateAfter]
  | cons c rest ih =>
    have hc' : c ≠ "</think>" := hmid c (List.mem_cons_self c rest)
    have hrest : ∀ t ∈ rest, t ≠ "</think>" := fun t ht =>
      hmid t (List.mem_cons_of_mem c ht)
    by_cases hc : c = ""
    · simpa [processTokens, stateAfter, hc] using ih hrest
    · have hhandle : handleThinkTags c false = ("", false) := by
        unfold handleThinkTags
        simp [hc, hc']
      simp [processTokens, stateAfter, hc, hhandle, ih hrest]

end Vlllm

theorem processTokens_think_block (mid post : List String) (s : Bool)
    (hmid : ∀ t ∈ mid, t ≠ "</think>") :
    Vlllm.processTokens ("<think>" :: (mid ++ "</think>" :: post)) s =
      Vlllm.processTokens post true := by
  have hstep : Vlllm.handleThinkTags "<think>" s = ("", false) := by
    simp [Vlllm.handleThinkTags]
  have h0 : Vlllm.processTokens ("<think>" :: (mid ++ "</think>" :: post)) s =
      Vlllm.processTokens (mid ++ "</think>" :: post) false := by
    simp [Vlllm.processTokens, hstep]
  obtain ⟨hmid1, hmid2⟩ := Vlllm.inactive_suppressed mid hmid
  have hclose : Vlllm.handleThinkTags "</think>" false = ("", true) := by
    simp [Vlllm.handleThinkTags]
  rw [h0, Vlllm.processTokens_append, hmid1, hmid2]
  simp [Vlllm.processTokens, hclose]

/-- C4: for every VLLLM token stream, no token lying between a `<think>`
marker token and the matching `</think>` marker token is forwarded to the
provider's output channel — the output of the whole stream is exactly the
output of the part before `<think>` followed by the output of the part after
`</think>` — and the `<think>` / `</think>` marker tokens themselves never
appear in any output. -/
theorem think_tokens_suppressed (pre mid post : List String)
    (hmid : ∀ t ∈ mid, t ≠ "</think>") :
    Vlllm.processTokens (pre ++ "<think>" :: (mid ++ "</think>" :: post)) true =
      Vlllm.processTokens pre true ++ Vlllm.processTokens post true ∧
    (∀ ts : List String, ∀ act : Bool,
      "<think>" ∉ Vlllm.processTokens ts act ∧
      "</think>" ∉ Vlllm.processTokens ts act) := by
  constructor
  · rw [Vlllm.processTokens_append,
      processTokens_think_block mid post _ hmid]
  · exact fun ts act => Vlllm.marker_not_in_output ts act

/-- Witness for C4: a concrete stream whose think block is dropped whole. -/
theorem think_tokens_suppressed_witness :
    Vlllm.processTokens
        (["hi"] ++ "<think>" :: (["secret", "reasoning"] ++ "</think>" :: ["bye"]))
        true =
      Vlllm.processTokens ["hi"] true ++ Vlllm.processTokens ["bye"] true ∧
    (∀ ts : List String, ∀ act : Bool,
      "<think>" ∉ Vlllm.processTokens ts act ∧
      "</think>" ∉ Vlllm.processTokens ts act) :=
  think_tokens_suppressed ["hi"] ["secret", "reasoning"] ["bye"]
    (by decide)

namespace Core

/-- Result of `auth.VerifyToken` as observed by `verifyToken`: the validity
flag, the device id embedded in the token, and whether the call returned an
error.  The `auth` package is a collaborator of `websocket_server.go`; only
this result shape matters to the control flow under verification. -/
structure TokenVerification where
  isValid : Bool
  deviceID : String
  errored : Bool

/-- Embeds `WebSocketServer.verifyToken` from `src/core/websocket_server.go`.
`verify` stands for `auth.NewAuthToken(config.Server.Token).VerifyToken`;
`requestDeviceID` is the `Device-Id` request header.  Every branch of the
source logs and returns `true`. -/
def verifyToken (authHeader : String) (verify : String → TokenVerification)
    (requestDeviceID : String) : Bool :=
  if authHeader = "" then
    true
  else if ¬ authHeader.startsWith "Bearer " then
    true
  else
    let token := authHeader.drop 7
    let v := verify token
    if v.errored || !v.isValid then
      true
    else if requestDeviceID ≠ v.deviceID then
      true
    else
      true

/-- One observable action of `handleWebSocket`: replying 401 before upgrade,
writing a control envelope of a given type to the client, closing the
connection, storing the connection context in `activeConnections`, or
spawning the session handler. -/
inductive WsAction
  | httpUnauthorized
  | sendEnvelope (envType : String)
  | closeConn
  | storeConnection
  | startHandler
deriving DecidableEq

/-- Embeds the control flow of `WebSocketServer.handleWebSocket` as the list
of observable actions it performs, given which of its fallible steps
succeed: token verification (only consulted when auth is enabled), the
websocket upgrade, and `poolManager.GetProviderSet()` (the ProviderSet
lease). -/
def handleWebSocket (authEnabled verifyOk upgradeOk leaseOk : Bool) :
    List WsAction :=
  if authEnabled && !verifyOk then [.httpUnauthorized]
  else if !upgradeOk then []
  else if !leaseOk then [.closeConn]
  else [.storeConnection, .startHandler]

end Core

/-- C5: `verifyToken` admits every request — for every Authorization header
(absent, non-Bearer, invalid signature) and every `Device-Id` header
(matching or not), it returns `true`, so no connection is rejected on an
authentication failure. -/
theorem verifyToken_always_true (authHeader requestDeviceID : String)
    (verify : String → Core.TokenVerification) :
    Core.verifyToken authHeader verify requestDeviceID = true := by
  unfold Core.verifyToken
  split
  · rfl
  · split
    · rfl
    · dsimp only
      split
      · rfl
      · split <;> rfl

/-- Counterexample to C6: when the ProviderSet lease fails after a
successful upgrade, `handleWebSocket` performs no `sendEnvelope` action at
all — in particular no `error` envelope — contrary to the claim that an
`error` envelope is sent before the connection is closed. -/
theorem pool_exhausted_no_envelope :
    Core.WsAction.sendEnvelope "error" ∉
      Core.handleWebSocket true true true false := by
  decide

/-- C6 (amended): when leasing a ProviderSet for a newly upgraded connection
fails, the server closes the connection without sending any envelope to the
client, and the connection is never stored in `activeConnections` nor
handed to a session handler, so established sessions are unaffected. -/
theorem pool_exhausted_closes_connection (authEnabled verifyOk : Bool)
    (hauth : (authEnabled && !verifyOk) = false) :
    Core.handleWebSocket authEnabled verifyOk true false =
      [Core.WsAction.closeConn] ∧
    (∀ t, Core.WsAction.sendEnvelope t ∉
      Core.handleWebSocket authEnabled verifyOk true false) ∧
    Core.WsAction.storeConnection ∉
      Core.handleWebSocket authEnabled verifyOk true false ∧
    Core.WsAction.startHandler ∉
      Core.handleWebSocket authEnabled verifyOk true false := by
  refine ⟨?_, ?_, ?_, ?_⟩ <;>
    simp [Core.handleWebSocket, hauth]

/-- Witness for C6 (amended) at a concrete input. -/
theorem pool_exhausted_closes_connection_witness :
    Core.handleWebSocket true true true false = [Core.WsAction.closeConn] :=
  (pool_exhausted_closes_connection true true (by decide)).1

namespace Service

/-- Embeds `models.Device` (`src/src/models/models.go`), restricted to the
fields the device service reads or writes.  Timestamps
(`ActivatedAt`, `LastSeen`, …) do not influence any verified property and
are omitted. -/
structure Device where
  id : Nat
  serialNumber : String
  deviceID : String
  clientID : String
  token : String
  activationCode : String
  challenge : String
  activated : Bool
deriving DecidableEq

/-- Embeds `Device.VerifyHMAC`: the presented hex digest is compared for
byte equality (`hmac.Equal` on the UTF-8 bytes, which coincides with string
equality) with the hex encoding of HMAC-SHA256 over the challenge under the
given key.  The crypto primitive `crypto/hmac` + `crypto/sha256` +
`hex.EncodeToString` is a library call, embedded as the abstract function
`hmacSha256Hex : key → message → hex digest`. -/
def VerifyHMAC (hmacSha256Hex : String → String → String)
    (challenge hmacHex hmacKey : String) : Bool :=
  hmacHex == hmacSha256Hex hmacKey challenge

/-- Embeds the database row lookup `database.DB.Where("id = ?", deviceID)
.First(&device)` over a pure table of devices. -/
def findByID (db : List Device) (i : Nat) : Option Device :=
  db.find? (fun d => d.id == i)

/-- Embeds the `Updates(map[...]{"activated": true, ...})` call of
`ActivateDeviceAndGetToken`: the matched row's `activated` flag is set. -/
def activateUpdate (db : List Device) (i : Nat) : List Device :=
  db.map (fun d => if d.id == i then { d with activated := true } else d)

/-- Embeds `DeviceService.ActivateDeviceAndGetToken` (unnamed service file,
`part_004`).  `gen` stands for `auth.NewAuthToken(config.Server.Token)
.GenerateToken`, returning `none` when that call errors; `hmacKey` is
`config.Server.Device.HmacKey`.  Returns the updated device table and the
token or error. -/
def ActivateDeviceAndGetToken (hmacSha256Hex : String → String → String)
    (gen : String → Option String) (hmacKey : String) (db : List Device)
    (deviceID : Nat) (challenge hmacHex : String) :
    List Device × Except String String :=
  match findByID db deviceID with
  | none => (db, .error "record not found")
  | some device =>
    if device.challenge ≠ challenge then (db, .error "invalid challenge")
    else if hmacKey = "" then (db, .error "HMAC key not configured")
    else if ¬ VerifyHMAC hmacSha256Hex challenge hmacHex hmacKey then
      (db, .error "invalid HMAC")
    else
      match gen device.deviceID with
      | none => (activateUpdate db deviceID, .error "generate token failed")
      | some t => (activateUpdate db deviceID, .ok t)

/-- Embeds `DeviceService.IdentifyDevice`: lookup by serial number, then by
MAC (`device_id`), then by client UUID, each attempted only when the
corresponding argument is nonempty. -/
def IdentifyDevice (db : List Device)
    (serialNumber deviceID clientID : String) : Option Device :=
  match (if serialNumber ≠ "" then
      db.find? (fun d => d.serialNumber == serialNumber) else none) with
  | some d => some d
  | none =>
    match (if deviceID ≠ "" then
        db.find? (fun d => d.deviceID == deviceID) else none) with
    | some d => some d
    | none =>
      if clientID ≠ "" then db.find? (fun d => d.clientID == clientID)
      else none

/-- Embeds `DeviceService.GetDeviceToken` (unnamed service file,
`part_004`). -/
def GetDeviceToken (hmacSha256Hex : String → String → String)
    (gen : String → Option String) (hmacKey : String) (db : List Device)
    (deviceID clientID challenge hmacHex : String) : Except String String :=
  match IdentifyDevice db "" deviceID clientID with
  | none => .error "record not found"
  | some device =>
    if ¬ device.activated then .error "device not activated"
    else if device.challenge ≠ challenge then .error "invalid challenge"
    else if hmacKey = "" then .error "HMAC key not configured"
    else if ¬ VerifyHMAC hmacSha256Hex challenge hmacHex hmacKey then
      .error "invalid HMAC"
    else
      match gen device.deviceID with
      | none => .error "generate token failed"
      | some t => .ok t

end Service

namespace Ota

/-- Embeds the token-issuing tail of `handleOtaPost` (unnamed ota file,
`part_000`): the response carries a `websocket.token` exactly when the
request passed its 400 guards (`device-id` header present, body parsed),
`IdentifyDevice("", deviceID, clientID)` found a device, the device is
activated, and `GenerateToken` succeeded. -/
def handleOtaPostToken (db : List Service.Device)
    (deviceID clientID : String) (bodyOk : Bool)
    (gen : String → Option String) : Option String :=
  if deviceID = "" then none
  else if ¬ bodyOk then none
  else
    match Service.IdentifyDevice db "" deviceID clientID with
    | some device => if device.activated then gen device.deviceID else none
    | none => none

end Ota

/-- C7: `ActivateDeviceAndGetToken` returns a token exactly when the device
with the given id exists, the presented challenge equals its stored
challenge, the configured HMAC key is nonempty, and the presented HMAC
equals the hex encoding of HMAC-SHA256 over the challenge under that key
(assuming token generation itself, a library call, does not fail); and
whenever it returns an error, the device table — in particular the device's
`activated` flag, stored challenge and activation code — is unchanged. -/
theorem activate_token_conditions (hmacSha256Hex : String → String → String)
    (gen : String → Option String) (hmacKey : String)
    (db : List Service.Device) (i : Nat) (ch hm : String)
    (hgen : ∀ s, gen s ≠ none) :
    ((∃ t, (Service.ActivateDeviceAndGetToken hmacSha256Hex gen hmacKey db
        i ch hm).2 = .ok t) ↔
      (∃ d, Service.findByID db i = some d ∧ d.challenge = ch ∧
        hmacKey ≠ "" ∧ hm = hmacSha256Hex hmacKey ch)) ∧
    (∀ e, (Service.ActivateDeviceAndGetToken hmacSha256Hex gen hmacKey db
        i ch hm).2 = .error e →
      (Service.ActivateDeviceAndGetToken hmacSha256Hex gen hmacKey db
        i ch hm).1 = db) := by
  unfold Service.ActivateDeviceAndGetToken
  cases hfind : Service.findByID db i with
  | none =>
    constructor
    · constructor
      · rintro ⟨t, ht⟩
        simp at ht
      · rintro ⟨d, hd, _⟩
        simp at hd
    · intro e _
      rfl
  | some d =>
    dsimp only
    by_cases h1 : d.challenge = ch
    · rw [if_neg (fun hh => hh h1)]
      by_cases h2 : hmacKey = ""
      · rw [if_pos h2]
        constructor
        · constructor
          · rintro ⟨t, ht⟩
            simp at ht
          · rintro ⟨d', hd', _, hkey, _⟩
            exact (hkey h2).elim
        · intro e _
          rfl
      · rw [if_neg h2]
        by_cases h3 : Service.VerifyHMAC hmacSha256Hex ch hm hmacKey = true
        · have hm_eq : hm = hmacSha256Hex hmacKey ch := by
            simpa [Service.VerifyHMAC] using h3
          rw [if_neg (not_not_intro h3)]
          cases hg : gen d.deviceID with
          | none => exact absurd hg (hgen d.deviceID)
          | some t0 =>
            dsimp only
            constructor
            · constructor
              · intro _
                exact ⟨d, rfl, h1, h2, hm_eq⟩
              · intro _
                exact ⟨t0, rfl⟩
            · intro e he
              simp at he
        · rw [if_pos h3]
          constructor
          · constructor
            · rintro ⟨t, ht⟩
              simp at ht
            · rintro ⟨d', hd', hch', hk, hm'⟩
              injection hd' with hdd
              subst hdd
              refine absurd ?_ h3
              simp [Service.VerifyHMAC, hm']
          · intro e _
            rfl
    · rw [if_pos (fun hh => h1 hh)]
      constructor
      · constructor
        · rintro ⟨t, ht⟩
          simp at ht
        · rintro ⟨d', hd', hch', _⟩
          injection hd' with hdd
          subst hdd
          exact (h1 hch').elim
      · intro e _
        rfl

/-- Witness for C7: a concrete device activates and receives a token when
all four conditions hold. -/
theorem activate_token_conditions_witness :
    ∃ t, (Service.ActivateDeviceAndGetToken (fun k m => k ++ ":" ++ m)
        (fun s => some s) "key"
        [⟨1, "sn", "mac", "cid", "tok", "code", "ch", false⟩] 1 "ch"
        "key:ch").2 = .ok t :=
  (activate_token_conditions (fun k m => k ++ ":" ++ m) (fun s => some s)
      "key" [⟨1, "sn", "mac", "cid", "tok", "code", "ch", false⟩] 1 "ch"
      "key:ch" (fun s h => Option.noConfusion h)).1.mpr
    ⟨⟨1, "sn", "mac", "cid", "tok", "code", "ch", false⟩, rfl, rfl,
      by decide, rfl⟩

/-- C8: the OTA POST handler includes a websocket token in its response only
when a device identified from the `device-id`/`client-id` headers exists, is
activated, and token generation succeeds; and `GetDeviceToken` returns an
error (hence no token) for every identified device that is not activated. -/
theorem token_only_for_activated :
    (∀ (db : List Service.Device) (deviceID clientID : String)
        (bodyOk : Bool) (gen : String → Option String) (t : String),
      Ota.handleOtaPostToken db deviceID clientID bodyOk gen = some t →
      ∃ d, Service.IdentifyDevice db "" deviceID clientID = some d ∧
        d.activated = true ∧ gen d.deviceID = some t) ∧
    (∀ (hmacSha256Hex : String → String → String)
        (gen : String → Option String) (hmacKey : String)
        (db : List Service.Device) (deviceID clientID ch hm : String)
        (d : Service.Device),
      Service.IdentifyDevice db "" deviceID clientID = some d →
      d.activated = false →
      ∃ e, Service.GetDeviceToken hmacSha256Hex gen hmacKey db
        deviceID clientID ch hm = .error e) := by
  constructor
  · intro db deviceID clientID bodyOk gen t h
    unfold Ota.handleOtaPostToken at h
    by_cases h0 : deviceID = ""
    · rw [if_pos h0] at h
      exact absurd h (by simp)
    · rw [if_neg h0] at h
      by_cases hb : bodyOk
      · rw [if_neg (not_not_intro hb)] at h
        cases hid : Service.IdentifyDevice db "" deviceID clientID with
        | none =>
          rw [hid] at h
          exact absurd h (by simp)
        | some d =>
          rw [hid] at h
          dsimp only at h
          by_cases ha : d.activated
          · rw [if_pos ha] at h
            exact ⟨d, rfl, ha, h⟩
          · rw [if_neg ha] at h
            exact absurd h (by simp)
      · rw [if_pos hb] at h
        exact absurd h (by simp)
  · intro hmacSha256Hex gen hmacKey db deviceID clientID ch hm d hid ha
    unfold Service.GetDeviceToken
    rw [hid]
    dsimp only
    rw [if_pos (by simp [ha])]
    exact ⟨"device not activated", rfl⟩

/-- Witness for C8: a concrete activated device yields a token through the
OTA POST path, and a concrete non-activated device is refused by
`GetDeviceToken`. -/
theorem token_only_for_activated_witness :
    (∃ d, Service.IdentifyDevice
        [⟨1, "sn", "mac", "cid", "tok", "code", "ch", true⟩] "" "mac" "" =
          some d ∧ d.activated = true ∧
        (fun s => some s) d.deviceID = some "mac") ∧
    (∃ e, Service.GetDeviceToken (fun k m => k ++ ":" ++ m) (fun s => some s)
        "key" [⟨2, "sn", "mac", "cid", "tok", "code", "ch", false⟩]
        "mac" "" "ch" "key:ch" = .error e) :=
  ⟨token_only_for_activated.1
      [⟨1, "sn", "mac", "cid", "tok", "code", "ch", true⟩] "mac" "" true
      (fun s => some s) "mac" rfl,
    token_only_for_activated.2 (fun k m => k ++ ":" ++ m) (fun s => some s)
      "key" [⟨2, "sn", "mac", "cid", "tok", "code", "ch", false⟩]
      "mac" "" "ch" "key:ch"
      ⟨2, "sn", "mac", "cid", "tok", "code", "ch", false⟩ rfl rfl⟩

namespace Task

/-- Outcome of running a Go function that may panic: it either returns
normally or panics with a recoverable value (rendered as a message). -/
inductive ExecResult (α : Type)
  | ok (val : α)
  | panicked (msg : String)
deriving DecidableEq

/-- The `interface{}` value a task callback receives: either the task's
result (on `OnComplete`) or the error map built by `OnError`, whose entries
are string key/value pairs. -/
inductive CbArg (α : Type)
  | result (r : α)
  | errMap (entries : List (String × String))
deriving DecidableEq

/-- Embeds `task.CallBack` from `src/task/callbacks.go`: a possibly-nil
stored callback function, which itself may panic when invoked. -/
structure CallBack (α : Type) where
  taskCallback : Option (CbArg α → ExecResult Unit)

/-- Embeds the `defer func() { if r := recover(); ... } }()` wrapper: a
panic raised by the wrapped function is recovered (and logged), so the
goroutine running it always terminates normally. -/
def recoverWrap (f : Unit → ExecResult Unit) : ExecResult Unit :=
  match f () with
  | .ok u => .ok u
  | .panicked _ => .ok ()

/-- Embeds `CallBack.OnComplete`.  The first component is how the spawned
goroutine terminates as seen by the runtime (a propagated panic would be
`.panicked`); the second records the argument the stored callback was
invoked with, `none` when it was not invoked. -/
def CallBack.OnComplete (cb : CallBack α) (result : α) :
    ExecResult Unit × Option (CbArg α) :=
  match cb.taskCallback with
  | none => (.ok (), none)
  | some f => (recoverWrap (fun _ => f (.result result)), some (.result result))

/-- Embeds `CallBack.OnError`: the callback, when present, is invoked with
the map `{"error": err.Error(), "status": "failed"}` under the same
recover wrapper. -/
def CallBack.OnError (cb : CallBack α) (errText : String) :
    ExecResult Unit × Option (CbArg α) :=
  match cb.taskCallback with
  | none => (.ok (), none)
  | some f =>
    let arg := CbArg.errMap [("error", errText), ("status", "failed")]
    (recoverWrap (fun _ => f arg), some arg)

end Task

/-- C9: for every stored callback and every result or error value,
`OnComplete` and `OnError` never propagate a panic raised by the wrapped
callback (the spawned goroutine always terminates normally); when the
stored callback is nil neither invokes anything; and `OnError` delivers to
the callback a map holding the error text under key `"error"` and
`"failed"` under key `"status"`. -/
theorem callbacks_never_panic {α : Type} (cb : Task.CallBack α) (r : α)
    (e : String) :
    (cb.OnComplete r).1 = .ok () ∧ (cb.OnError e).1 = .ok () ∧
    (cb.taskCallback = none →
      (cb.OnComplete r).2 = none ∧ (cb.OnError e).2 = none) ∧
    (cb.taskCallback ≠ none →
      (cb.OnError e).2 =
        some (.errMap [("error", e), ("status", "failed")])) := by
  cases hcb : cb.taskCallback with
  | none =>
    refine ⟨?_, ?_, ?_, ?_⟩ <;>
      simp [Task.CallBack.OnComplete, Task.CallBack.OnError, hcb]
  | some f =>
    refine ⟨?_, ?_, ?_, ?_⟩ <;>
      simp [Task.CallBack.OnComplete, Task.CallBack.OnError,
        Task.recoverWrap, hcb]
    · cases hf : f (.result r) with
      | ok u => cases u; rfl
      | panicked m => rfl
    · cases hf : f (.errMap [("error", e), ("status", "failed")]) with
      | ok u => cases u; rfl
      | panicked m => rfl

/-- Witness for C9: a callback that always panics is recovered, and the
nil callback does nothing. -/
theorem callbacks_never_panic_witness :
    ((Task.CallBack.mk (some (fun _ : Task.CbArg Nat => .panicked "boom"))
        ).OnComplete 3).1 = .ok () ∧
    ((Task.CallBack.mk (none : Option (Task.CbArg Nat → Task.ExecResult Unit))
        ).OnError "oops").2 = none :=
  ⟨(callbacks_never_panic
      (Task.CallBack.mk (some (fun _ => .panicked "boom"))) 3 "oops").1,
    ((callbacks_never_panic (Task.CallBack.mk none) 3 "oops").2.2.1 rfl).2⟩


namespace Ota

/-- Embeds `filepath.Base` (Unix rules, as used on the glob results),
working on the character list of the path: strip trailing slashes, keep the
part after the last slash, with `"."` for the empty path and `"/"` for an
all-slash path. -/
def baseChars (cs : List Char) : List Char :=
  if cs = [] then ['.']
  else
    let trimmed := (cs.reverse.dropWhile (fun c => c = '/')).reverse
    let last := (trimmed.reverse.takeWhile (fun c => c ≠ '/')).reverse
    if last = [] then ['/'] else last

/-- Embeds `strings.TrimSuffix(s, ".bin")` on the character list: drop the
last four characters exactly when they are `.bin`. -/
def trimSuffixBinChars (cs : List Char) : List Char :=
  if cs.reverse.take 4 = ['n', 'i', 'b', '.'] then (cs.reverse.drop 4).reverse
  else cs

/-- Embeds `strings.Split(s, ".")` for the non-empty separator `"."`: every
`.` starts a new component, empty components included, and the empty input
yields one empty component. -/
def splitOnDot : List Char → List (List Char)
  | [] => [[]]
  | c :: rest =>
    if c = '.' then [] :: splitOnDot rest
    else
      match splitOnDot rest with
      | h :: t => (c :: h) :: t
      | [] => [[c]]

/-- The version components the comparator works on:
`strings.Split(strings.TrimSuffix(filepath.Base(x), ".bin"), ".")`, each
component kept as its character sequence. -/
def comps (x : String) : List (List Char) :=
  splitOnDot (trimSuffixBinChars (baseChars x.toList))

/-- Embeds Go's `<` on strings — lexicographic over the byte sequence,
which for valid UTF-8 coincides with lexicographic over the character
(code-point) sequence. -/
def charListLt : List Char → List Char → Bool
  | [], [] => false
  | [], _ :: _ => true
  | _ :: _, [] => false
  | a :: as, b :: bs => if a = b then charListLt as bs else decide (a < b)

/-- Embeds the comparison loop of `versionLess`: walk the shared prefix,
decide at the first differing component by plain string comparison, and
order the list with fewer components first when the shared components all
agree. -/
def lexLess : List (List Char) → List (List Char) → Bool
  | [], [] => false
  | [], _ :: _ => true
  | _ :: _, [] => false
  | a :: as, b :: bs => if a ≠ b then charListLt a b else lexLess as bs

/-- Embeds `versionLess` (unnamed ota file, `part_000`). -/
def versionLess (a b : String) : Bool :=
  lexLess (comps a) (comps b)

/-- The order in which `sort.Slice(bins, func(i, j int) bool { return
versionLess(bins[j], bins[i]) })` leaves the slice: descending, each
element not version-less than any later one. -/
def notVersionLess (a b : String) : Prop :=
  versionLess a b = false

instance : DecidableRel notVersionLess := fun a b => by
  unfold notVersionLess
  infer_instance

/-- Embeds the firmware selection of `handleOtaPost`: sort the glob results
descending under `versionLess` and take the first (`bins[0]`), `none` when
the directory holds no `.bin` file. -/
def latestBin (bins : List String) : Option String :=
  (List.insertionSort notVersionLess bins).head?

theorem charListLt_asymm (x y : List Char) (h : charListLt x y = true) :
    charListLt y x = false := by
  induction x generalizing y with
  | nil =>
    cases y with
    | nil => simp [charListLt] at h
    | cons b bs => rfl
  | cons a as ih =>
    cases y with
    | nil => simp [charListLt] at h
    | cons b bs =>
      by_cases hab : a = b
      · subst hab
        have h' : charListLt as bs = true := by simpa [charListLt] using h
        simpa [charListLt] using ih bs h'
      · have hlt : a < b := by simpa [charListLt, hab] using h
        have hnlt : ¬ b < a := lt_asymm hlt
        simp [charListLt, Ne.symm hab, hnlt]

theorem charListLt_trans (x y z : List Char) (h1 : charListLt x y = true)
    (h2 : charListLt y z = true) : charListLt x z = true := by
  induction x generalizing y z with
  | nil =>
    cases y with
    | nil => simp [charListLt] at h1
    | cons b bs =>
      cases z with
      | nil => simp [charListLt] at h2
      | cons c cs => rfl
  | cons a as ih =>
    cases y with
    | nil => simp [charListLt] at h1
    | cons b bs =>
      cases z with
      | nil => simp [charListLt] at h2
      | cons c cs =>
        by_cases hab : a = b
        · subst hab
          have h1' : charListLt as bs = true := by simpa [charListLt] using h1
          by_cases hbc : a = c
          · subst hbc
            have h2' : charListLt bs cs = true := by
              simpa [charListLt] using h2
            simpa [charListLt] using ih bs cs h1' h2'
          · have hlt : a < c := by simpa [charListLt, hbc] using h2
            simp [charListLt, hbc, hlt]
        · have hlt1 : a < b := by simpa [charListLt, hab] using h1
          by_cases hbc : b = c
          · subst hbc
            simp [charListLt, hab, hlt1]
          · have hlt2 : b < c := by simpa [charListLt, hbc] using h2
            have hac : a < c := lt_trans hlt1 hlt2
            simp [charListLt, ne_of_lt hac, hac]

theorem charListLt_eq_of_not (x y : List Char)
    (h1 : charListLt x y = false) (h2 : charListLt y x = false) : x = y := by
  induction x generalizing y with
  | nil =>
    cases y with
    | nil => rfl
    | cons b bs => simp [charListLt] at h1
  | cons a as ih =>
    cases y with
    | nil => simp [charListLt] at h2
    | cons b bs =>
      by_cases hab : a = b
      · subst hab
        have h1' : charListLt as bs = false := by simpa [charListLt] using h1
        have h2' : charListLt bs as = false := by simpa [charListLt] using h2
        rw [ih bs h1' h2']
      · have hn1 : ¬ a < b := by simpa [charListLt, hab] using h1
        have hn2 : ¬ b < a := by simpa [charListLt, Ne.symm hab] using h2
        rcases lt_or_gt_of_ne hab with h | h
        · exact absurd h hn1
        · exact absurd h hn2

theorem lexLess_irrefl (x : List (List Char)) : lexLess x x = false := by
  induction x with
  | nil => rfl
  | cons a as ih => simp [lexLess, ih]

theorem lexLess_asymm (x y : List (List Char)) (h : lexLess x y = true) :
    lexLess y x = false := by
  induction x generalizing y with
  | nil =>
    cases y with
    | nil => simp [lexLess] at h
    | cons b bs => rfl
  | cons a as ih =>
    cases y with
    | nil => simp [lexLess] at h
    | cons b bs =>
      by_cases hab : a = b
      · subst hab
        have h' : lexLess as bs = true := by simpa [lexLess] using h
        simpa [lexLess] using ih bs h'
      · have hlt : charListLt a b = true := by simpa [lexLess, hab] using h
        simp [lexLess, Ne.symm hab, charListLt_asymm a b hlt]

theorem lexLess_trans (x y z : List (List Char)) (h1 : lexLess x y = true)
    (h2 : lexLess y z = true) : lexLess x z = true := by
  induction x generalizing y z with
  | nil =>
    cases y with
    | nil => simp [lexLess] at h1
    | cons b bs =>
      cases z with
      | nil => simp [lexLess] at h2
      | cons c cs => rfl
  | cons a as ih =>
    cases y with
    | nil => simp [lexLess] at h1
    | cons b bs =>
      cases z with
      | nil => simp [lexLess] at h2
      | cons c cs =>
        by_cases hab : a = b
        · subst hab
          have h1' : lexLess as bs = true := by simpa [lexLess] using h1
          by_cases hbc : a = c
          · subst hbc
            have h2' : lexLess bs cs = true := by simpa [lexLess] using h2
            simpa [lexLess] using ih bs cs h1' h2'
          · have hlt : charListLt a c = true := by
              simpa [lexLess, hbc] using h2
            simp [lexLess, hbc, hlt]
        · have hlt1 : charListLt a b = true := by simpa [lexLess, hab] using h1
          by_cases hbc : b = c
          · subst hbc
            simp [lexLess, hab, hlt1]
          · have hlt2 : charListLt b c = true := by
              simpa [lexLess, hbc] using h2
            have hac : charListLt a c = true := charListLt_trans a b c hlt1 hlt2
            have hane : a ≠ c := by
              intro hae
              subst hae
              exact absurd hlt2 (by simp [charListLt_asymm a b hlt1])
            simp [lexLess, hane, hac]

theorem lexLess_eq_of_not (x y : List (List Char))
    (h1 : lexLess x y = false) (h2 : lexLess y x = false) : x = y := by
  induction x generalizing y with
  | nil =>
    cases y with
    | nil => rfl
    | cons b bs => simp [lexLess] at h1
  | cons a as ih =>
    cases y with
    | nil => simp [lexLess] at h2
    | cons b bs =>
      by_cases hab : a = b
      · subst hab
        have h1' : lexLess as bs = false := by simpa [lexLess] using h1
        have h2' : lexLess bs as = false := by simpa [lexLess] using h2
        rw [ih bs h1' h2']
      · have hn1 : charListLt a b = false := by simpa [lexLess, hab] using h1
        have hn2 : charListLt b a = false := by
          simpa [lexLess, Ne.symm hab] using h2
        exact absurd (charListLt_eq_of_not a b hn1 hn2) hab

instance : IsTotal String notVersionLess :=
  ⟨fun a b => by
    unfold notVersionLess
    cases hv : versionLess a b with
    | false => exact Or.inl rfl
    | true => exact Or.inr (lexLess_asymm _ _ hv)⟩

instance : IsTrans String notVersionLess :=
  ⟨fun a b c h1 h2 => by
    unfold notVersionLess versionLess at h1 h2 ⊢
    cases hac : lexLess (comps a) (comps c) with
    | false => rfl
    | true =>
      exfalso
      cases hba : lexLess (comps b) (comps a) with
      | true =>
        exact absurd (lexLess_trans _ _ _ hba hac) (by simp [h2])
      | false =>
        have heq := lexLess_eq_of_not _ _ h1 hba
        rw [heq] at hac
        exact absurd hac (by simp [h2])⟩

end Ota

/-- C10: the OTA POST handler reports as latest the `.bin` file that is
maximal under `versionLess`, which strips the directory and the `.bin`
suffix, splits on dots, and compares components left to right as plain
strings (fewer components ordering first on a tie) — so component `"10"`
orders before component `"9"`, and a name with fewer components orders
before an extension of it. -/
theorem latest_firmware_maximal (bins : List String) (h : bins ≠ []) :
    (∃ m, Ota.latestBin bins = some m ∧ m ∈ bins ∧
      ∀ b ∈ bins, Ota.versionLess m b = false) ∧
    Ota.versionLess "ota_bin/10.bin" "ota_bin/9.bin" = true ∧
    Ota.versionLess "ota_bin/1.2.bin" "ota_bin/1.2.3.bin" = true := by
  refine ⟨?_, by decide, by decide⟩
  have hperm := List.perm_insertionSort Ota.notVersionLess bins
  have hsorted := List.sorted_insertionSort Ota.notVersionLess bins
  cases hs : List.insertionSort Ota.notVersionLess bins with
  | nil =>
    exfalso
    apply h
    rw [hs] at hperm
    exact (List.Perm.nil_eq hperm).symm
  | cons m rest =>
    rw [hs] at hperm hsorted
    refine ⟨m, ?_, ?_, ?_⟩
    · unfold Ota.latestBin
      rw [hs]
      rfl
    · exact hperm.mem_iff.mp (List.mem_cons_self m rest)
    · intro b hb
      have hbl : b ∈ m :: rest := hperm.mem_iff.mpr hb
      rcases List.mem_cons.mp hbl with heq | hbr
      · rw [heq]
        exact Ota.lexLess_irrefl (Ota.comps m)
      · exact (List.sorted_cons.mp hsorted).1 b hbr

/-- Witness for C10 on a concrete directory listing: the file named `10` is
reported latest although `9` is numerically smaller — string order places
`"10"` before `"9"`. -/
theorem latest_firmware_maximal_witness :
    (∃ m, Ota.latestBin ["ota_bin/9.bin", "ota_bin/10.bin"] = some m ∧
      m ∈ ["ota_bin/9.bin", "ota_bin/10.bin"] ∧
      ∀ b ∈ ["ota_bin/9.bin", "ota_bin/10.bin"],
        Ota.versionLess m b = false) ∧
    Ota.versionLess "ota_bin/10.bin" "ota_bin/9.bin" = true ∧
    Ota.versionLess "ota_bin/1.2.bin" "ota_bin/1.2.3.bin" = true :=
  latest_firmware_maximal ["ota_bin/9.bin", "ota_bin/10.bin"] (by simp)
